import Mathlib

/-!
# bakery: the bakeform inventory and the NFS export regenerator

A shallow embedding of `nfsOps.go` and `bakeformInventory.go`.

Go strings are Lean `String`s, an `error` is its text, and `nil` is `none`.
Every call that leaves the two files (the operating system, the Go standard
library, the `fileBackend` and `piInventory` interfaces and the methods of
`Bakeform`) is a field of an environment record acting on an abstract world
state `σ`, so every theorem holds for all behaviours of those collaborators.
Calls are recorded in a trace of events, in program order.
-/

namespace Bakery

/-- The text of a Go `error`. -/
abbrev Error := String

/-! ## nfsOps.go -/

/-- A boot-client record as seen by `regenNfsExports`: only `GetRootLocation()` is used. -/
structure PiRecord where
  GetRootLocation : String
deriving DecidableEq, Repr

/-- The collaborators of `regenNfsExports`: the `piInventory` interface and `ioutil.WriteFile`. -/
structure NfsEnv (σ : Type) where
  /-- The method `piInv.ListOven()`. -/
  ListOven : σ → Except Error (List PiRecord)
  /-- The call `ioutil.WriteFile(path, data, 0644)`: the returned error and the world afterwards. -/
  WriteFile : String → String → σ → Option Error × σ

/-- What a run of `regenNfsExports` returns and leaves behind. -/
structure NfsOut (σ : Type) where
  /-- The returned error. -/
  err : Option Error
  /-- The world after the call. -/
  world : σ
  /-- What was printed on standard output. -/
  stdout : List String

/-- One iteration of the loop of `regenNfsExports` (nfsOps.go:23);
`fmt.Sprintf` with the verb `%v` prints a string verbatim. -/
def exportsStep (exportsContent : String) (pi : PiRecord) : String :=
  exportsContent ++ (pi.GetRootLocation ++ " *(rw,sync,no_subtree_check,no_root_squash)\n")

/-- The function `regenNfsExports` of nfsOps.go:11-31. The mutex is taken on entry and
released on every return; in this sequential model it has no other effect. -/
def regenNfsExports {σ : Type} (env : NfsEnv σ) (w : σ) : NfsOut σ :=
  match env.ListOven w with
  | .error err => { err := some err, world := w, stdout := [] }
  | .ok piList =>
    let exportsContent := piList.foldl exportsStep ""
    let r := env.WriteFile "/etc/exports" exportsContent w
    { err := r.1, world := r.2,
      stdout := ["Generated new exports file:\n" ++ exportsContent ++ "\n"] }

/-- The export line of one boot client, as the specification writes it. -/
def exportLine (root : String) : String :=
  root ++ " *(rw,sync,no_subtree_check,no_root_squash)\n"

/-- The concatenation, in list order, of the export lines of the root locations. -/
def exportsFile : List String → String
  | [] => ""
  | root :: rest => exportLine root ++ exportsFile rest

/-! ### A test double for the file system -/

/-- A file store: each path with its content, at most once. -/
abbrev SimFiles := List (String × String)

/-- The content of a file of the store. -/
def SimFiles.read (fs : SimFiles) (path : String) : Option String :=
  (fs.find? (fun e => e.1 == path)).map (fun e => e.2)

/-- A write that truncates: the old entry of the path is dropped, the new one added. -/
def SimFiles.write (fs : SimFiles) (path data : String) : SimFiles :=
  (path, data) :: fs.filter (fun e => !(e.1 == path))

/-- A `piInventory` that lists the given root locations, over a store whose
`WriteFile` always succeeds and replaces the file. -/
def simNfsEnv (roots : List String) : NfsEnv SimFiles where
  ListOven := fun _ => .ok (roots.map PiRecord.mk)
  WriteFile := fun path data fs => (none, fs.write path data)

/-! ## bakeformInventory.go -/

/-! ### The two string functions of the standard library that `Load` uses -/

/-- The Go call `strings.Split(s, sep)` for a separator of one character: the
pieces between the separators, always at least one piece. -/
def splitChars (sep : Char) : List Char → List (List Char)
  | [] => [[]]
  | c :: cs =>
    if c = sep then [] :: splitChars sep cs
    else
      match splitChars sep cs with
      | [] => [[c]]
      | p :: ps => (c :: p) :: ps

/-- When `old` starts `s`, what of `s` follows it. -/
def stripLead : List Char → List Char → Option (List Char)
  | [], s => some s
  | _ :: _, [] => none
  | a :: as, b :: bs => if a = b then stripLead as bs else none

/-- The Go call `strings.Replace(s, old, new, 1)`: the leftmost occurrence of
`old` in `s` is replaced by `new`; without an occurrence `s` is returned. -/
def replaceFirst (old new : List Char) : List Char → List Char
  | [] => if old = [] then new else []
  | c :: cs =>
    match stripLead old (c :: cs) with
    | some rest => new ++ rest
    | none => c :: replaceFirst old new cs

/-- The expression `nameParts[len(nameParts)-1]` of bakeformInventory.go:63-64 on
`nameParts := strings.Split(img, "/")`. -/
def lastPart (img : String) : String :=
  String.mk ((splitChars '/' img.data).getLastD [])

/-- The name `Load` derives from an image path (bakeformInventory.go:63-64):
`strings.Replace(nameParts[len(nameParts)-1], ".img", "", 1)`. -/
def imageName (img : String) : String :=
  String.mk (replaceFirst ".img".data [] (lastPart img).data)

/-! ### Data -/

/-- The struct `Bakeform`, as `Load` fills it. The field `fb` (the file backend)
is the `nfs` of the inventory, which the environment record stands for. -/
structure Bakeform where
  Name : String
  Location : String
  MountedOn : List String
  mountRoot : String
  bootLocation : String
  kpartxPath : String
deriving DecidableEq, Repr

/-- The type `BakeformList`, a Go `map[string]*Bakeform`: each key at most once. -/
abbrev BakeformList := List (String × Bakeform)

/-- The map read `list[name]`: the value and whether the key exists. -/
def BakeformList.get (l : BakeformList) (name : String) : Option Bakeform :=
  match l with
  | [] => none
  | (k, v) :: rest => if k = name then some v else BakeformList.get rest name

/-- The map write `list[name] = bf`: an existing key is overwritten. -/
def BakeformList.set (l : BakeformList) (name : String) (bf : Bakeform) : BakeformList :=
  match l with
  | [] => [(name, bf)]
  | (k, v) :: rest =>
    if k = name then (k, bf) :: rest else (k, v) :: BakeformList.set rest name bf

/-- The keys of the map. -/
def BakeformList.keys (l : BakeformList) : List String :=
  l.map (fun e => e.1)

/-- The struct `BakeformInventory` (bakeformInventory.go:26-32); its field `nfs`
is the environment record. -/
structure BakeformInventory where
  folder : String
  mountRoot : String
  Content : BakeformList
  kpartxPath : String
deriving DecidableEq, Repr

/-- The calls that leave bakeformInventory.go, in program order. -/
inductive Event where
  /-- A line written by `log.Printf` or `log.Println`. -/
  | log (msg : String)
  /-- Entry into `Load`. -/
  | loadCalled
  /-- The call `filepath.Glob(pattern)`. -/
  | glob (pattern : String)
  /-- The call `os.Stat(path)`, with whether `os.IsNotExist` held of its error. -/
  | stat (path : String) (notExist : Bool)
  /-- The call `bf.mount()` on the bakeform of that name. -/
  | mount (name : String)
  /-- The call `nfs.CopyBootFolder(src, name)`. -/
  | copyBoot (src name : String)
  /-- The call `bf.unmount()` on the bakeform of that name. -/
  | unmount (name : String)
  /-- The call `bf.Delete()`. -/
  | delete (bf : Bakeform)
  /-- The call `os.OpenFile(path, O_WRONLY|O_CREATE|O_EXCL, 0666)`. -/
  | openFile (path : String)
  /-- The call `io.Copy(file, r.Body)` into the file opened at `path`. -/
  | ioCopy (path : String) (body : String)
  /-- The deferred `r.Body.Close()`. -/
  | bodyClose
deriving DecidableEq, Repr

/-- The collaborators of the inventory over a world state `σ`. -/
structure Env (σ : Type) where
  /-- The call `filepath.Glob(pattern)`; it reads the world only. -/
  Glob : String → σ → Except Error (List String)
  /-- The method `nfs.GetBootRoot()`. -/
  GetBootRoot : String
  /-- The function `path.Join` on two elements. -/
  pathJoin : String → String → String
  /-- Whether `os.IsNotExist(err)` holds of the error of `os.Stat(path)`. -/
  statNotExist : String → σ → Bool
  /-- The method `bf.mount()`: its error, the bakeform and the world afterwards. -/
  mount : Bakeform → σ → Option Error × Bakeform × σ
  /-- The method `bf.unmount()`: its error, the bakeform and the world afterwards. -/
  unmount : Bakeform → σ → Option Error × Bakeform × σ
  /-- The method `nfs.CopyBootFolder(src, name)`: its error and the world afterwards. -/
  CopyBootFolder : String → String → σ → Option Error × σ
  /-- The method `bf.Delete()`: its error, the bakeform and the world afterwards. -/
  Delete : Bakeform → σ → Option Error × Bakeform × σ
  /-- The call `os.OpenFile(path, O_WRONLY|O_CREATE|O_EXCL, 0666)`. -/
  OpenFile : String → σ → Option Error × σ
  /-- The call `io.Copy(file, r.Body)` into the file opened at the path. -/
  Copy : String → String → σ → Option Error × σ
  /-- The call `json.Marshal` on a `*Bakeform`, `none` being the nil pointer. -/
  Marshal : Option Bakeform → String
  /-- The bytes of the regular file at a path, when there is one. -/
  fileBytes : String → σ → Option String

/-- How a Go function ends. -/
inductive Ret where
  /-- It returned `nil`. -/
  | nil
  /-- It returned an error. -/
  | err (e : Error)
  /-- It panicked (index out of range). -/
  | panic
deriving DecidableEq, Repr

/-! ### Load -/

/-- The bakeform that `Load` builds for an image path (bakeformInventory.go:67-74). -/
def newBakeform {σ : Type} (env : Env σ) (i : BakeformInventory) (img : String) : Bakeform :=
  { Name := imageName img
    Location := img
    MountedOn := []
    mountRoot := i.mountRoot
    bootLocation := env.pathJoin env.GetBootRoot (imageName img)
    kpartxPath := i.kpartxPath }

/-- What the body of the loop of `Load` does with one image. -/
inductive ImageStep (σ : Type) where
  /-- The body reached `list[name] = bf`. -/
  | next (bf : Bakeform) (w : σ) (tr : List Event)
  /-- The body returned from `Load`. -/
  | stop (r : Ret) (w : σ) (tr : List Event)

/-- The body of the loop of `Load` up to the map write (bakeformInventory.go:63-88). -/
def loadImage {σ : Type} (env : Env σ) (i : BakeformInventory) (img : String) (w : σ) :
    ImageStep σ :=
  let name := imageName img
  let bf := newBakeform env i img
  let t0 := [Event.log ("Loading image " ++ name ++ "\n")]
  if env.statNotExist bf.bootLocation w then
    let t1 := t0 ++ [Event.stat bf.bootLocation true, Event.mount name]
    match env.mount bf w with
    | (some err, _, w1) => .stop (.err err) w1 t1
    | (none, bf1, w1) =>
      match bf1.MountedOn with
      | [] => .stop .panic w1 t1
      | m0 :: _ =>
        let c := env.CopyBootFolder (m0 ++ "/") name w1
        let u := env.unmount bf1 c.2
        let t2 := t1 ++ [Event.copyBoot (m0 ++ "/") name, Event.unmount name]
        match c.1 with
        | some err => .stop (.err err) u.2.2 t2
        | none => .next u.2.1 u.2.2 t2
  else
    .next bf w (t0 ++ [Event.stat bf.bootLocation false])

/-- The world in which the body of the loop ends. -/
def ImageStep.world {σ : Type} : ImageStep σ → σ
  | .next _ w _ => w
  | .stop _ w _ => w

/-- The calls the body of the loop made. -/
def ImageStep.trace {σ : Type} : ImageStep σ → List Event
  | .next _ _ tr => tr
  | .stop _ _ tr => tr

/-- The state in which the loop of `Load` ends. -/
structure LoopOut (σ : Type) where
  ret : Ret
  list : BakeformList
  world : σ
  trace : List Event

/-- The loop of `Load` over the image files (bakeformInventory.go:62-91), from the
mapping `list` built so far. -/
def loadLoop {σ : Type} (env : Env σ) (i : BakeformInventory) :
    List String → BakeformList → σ → LoopOut σ
  | [], list, w => { ret := .nil, list := list, world := w, trace := [] }
  | img :: rest, list, w =>
    match loadImage env i img w with
    | .stop r w1 tr => { ret := r, list := list, world := w1, trace := tr }
    | .next bf w1 tr =>
      let o := loadLoop env i rest (list.set (imageName img) bf) w1
      { o with trace := tr ++ o.trace }

/-- What a run of `Load` returns and leaves behind. -/
structure LoadOut (σ : Type) where
  ret : Ret
  inv : BakeformInventory
  world : σ
  trace : List Event

/-- The method `BakeformInventory.Load` (bakeformInventory.go:54-96). -/
def Load {σ : Type} (env : Env σ) (i : BakeformInventory) (w : σ) : LoadOut σ :=
  let pattern := i.folder ++ "/*.img"
  match env.Glob pattern w with
  | .error err =>
    { ret := .err err, inv := i, world := w, trace := [.loadCalled, .glob pattern] }
  | .ok imgFiles =>
    let o := loadLoop env i imgFiles [] w
    match o.ret with
    | .nil =>
      { ret := .nil, inv := { i with Content := o.list }, world := o.world,
        trace := .loadCalled :: .glob pattern :: o.trace }
    | r => { ret := r, inv := i, world := o.world,
             trace := .loadCalled :: .glob pattern :: o.trace }

/-! ### The HTTP handlers -/

/-- The state of an `http.ResponseWriter`: the status line once it is written, and the body. -/
structure Response where
  status : Option Nat
  body : String
deriving DecidableEq, Repr

/-- A response nothing was written to yet. -/
def Response.fresh : Response := { status := none, body := "" }

/-- The method `w.WriteHeader(code)`: the first status written stands. -/
def Response.WriteHeader (r : Response) (code : Nat) : Response :=
  match r.status with
  | none => { r with status := some code }
  | some _ => r

/-- The method `w.Write(b)`: it writes the status 200 first when none was written. -/
def Response.Write (r : Response) (b : String) : Response :=
  { status := some (r.status.getD 200), body := r.body ++ b }

/-- The status the client receives: 200 when the handler wrote none. -/
def Response.answered (r : Response) : Nat := r.status.getD 200

/-- What a handler leaves behind. -/
structure HandlerOut (σ : Type) where
  resp : Response
  inv : BakeformInventory
  world : σ
  trace : List Event
  panicked : Bool

/-- The method `BakeformInventory.UploadHandler` (bakeformInventory.go:116-152), on the
URL variable `name` and the request body. -/
def UploadHandler {σ : Type} (env : Env σ) (i : BakeformInventory) (name body : String)
    (resp : Response) (w : σ) : HandlerOut σ :=
  let filepath := i.folder ++ "/" ++ name ++ ".img"
  let t0 := [Event.log ("Receiving upload: " ++ filepath ++ "\n"), Event.openFile filepath]
  match env.OpenFile filepath w with
  | (some err, w1) =>
    { resp := (resp.WriteHeader 403).Write err, inv := i, world := w1,
      trace := t0 ++ [.log ("Error creating image file: " ++ err ++ "\n"), .bodyClose],
      panicked := false }
  | (none, w1) =>
    let t1 := t0 ++ [Event.ioCopy filepath body]
    match env.Copy filepath body w1 with
    | (some err, w2) =>
      { resp := (resp.WriteHeader 500).Write err, inv := i, world := w2,
        trace := t1 ++ [.log ("Error saving image: " ++ err ++ "\n"), .bodyClose],
        panicked := false }
    | (none, w2) =>
      let l := Load env i w2
      match l.ret with
      | .err err =>
        { resp := (resp.WriteHeader 500).Write err, inv := l.inv, world := l.world,
          trace := t1 ++ l.trace ++ [.log ("Error loading images: " ++ err ++ "\n"), .bodyClose],
          panicked := false }
      | .panic =>
        { resp := resp, inv := l.inv, world := l.world,
          trace := t1 ++ l.trace ++ [.bodyClose], panicked := true }
      | .nil =>
        { resp := (resp.WriteHeader 201).Write (env.Marshal (l.inv.Content.get name)),
          inv := l.inv, world := l.world,
          trace := t1 ++ l.trace ++ [.bodyClose], panicked := false }

/-- The method `BakeformInventory.DeleteHandler` (bakeformInventory.go:154-179), on the
URL variable `name`. The map holds pointers, so what `Delete` does to the bakeform
is seen through `Content`. -/
def DeleteHandler {σ : Type} (env : Env σ) (i : BakeformInventory) (name : String)
    (resp : Response) (w : σ) : HandlerOut σ :=
  match i.Content.get name with
  | none =>
    { resp := (resp.WriteHeader 404).Write "Bakeform not found", inv := i, world := w,
      trace := [], panicked := false }
  | some bf =>
    match env.Delete bf w with
    | (some err, bf1, w1) =>
      { resp := (resp.WriteHeader 500).Write err,
        inv := { i with Content := i.Content.set name bf1 }, world := w1,
        trace := [.delete bf, .log ("Error deleting bakeform: " ++ err)],
        panicked := false }
    | (none, bf1, w1) =>
      let l := Load env { i with Content := i.Content.set name bf1 } w1
      match l.ret with
      | .err err =>
        { resp := (resp.WriteHeader 500).Write err, inv := l.inv, world := l.world,
          trace := .delete bf :: l.trace ++ [.log ("Error Reloading bakerforms: " ++ err)],
          panicked := false }
      | .panic =>
        { resp := resp, inv := l.inv, world := l.world,
          trace := .delete bf :: l.trace, panicked := true }
      | .nil =>
        { resp := resp, inv := l.inv, world := l.world,
          trace := .delete bf :: l.trace, panicked := false }

/-! ### Properties of traces -/

/-- Every occurrence of the event `e` in the trace comes right after the events `before`. -/
def RightAfter (before : List Event) (e : Event) (tr : List Event) : Prop :=
  ∀ pre post, tr = pre ++ e :: post → ∃ pre0, pre = pre0 ++ before

/-- The number of `CopyBootFolder` calls for the name `n` in a trace. -/
def copyCount (n : String) : List Event → Nat
  | [] => 0
  | .copyBoot _ m :: rest => (if m = n then 1 else 0) + copyCount n rest
  | _ :: rest => copyCount n rest

/-! ### The model of the boot copy that the idempotence property is stated in -/

/-- A world in which a successful `CopyBootFolder(_, name)` makes the boot location of
`name` exist, no step of `Load` removes an existing path, and no step of `Load`
changes what `Glob` finds in the image folder. -/
structure BootCopyModel {σ : Type} (env : Env σ) : Prop where
  copy_marks : ∀ src name w, (env.CopyBootFolder src name w).1 = none →
    env.statNotExist (env.pathJoin env.GetBootRoot name) (env.CopyBootFolder src name w).2 = false
  copy_keeps : ∀ p src name w, env.statNotExist p w = false →
    env.statNotExist p (env.CopyBootFolder src name w).2 = false
  mount_keeps : ∀ p bf w, env.statNotExist p w = false →
    env.statNotExist p (env.mount bf w).2.2 = false
  unmount_keeps : ∀ p bf w, env.statNotExist p w = false →
    env.statNotExist p (env.unmount bf w).2.2 = false
  glob_copy : ∀ pat src name w, env.Glob pat (env.CopyBootFolder src name w).2 = env.Glob pat w
  glob_mount : ∀ pat bf w, env.Glob pat (env.mount bf w).2.2 = env.Glob pat w
  glob_unmount : ∀ pat bf w, env.Glob pat (env.unmount bf w).2.2 = env.Glob pat w

/-- The exclusive create of `O_CREATE|O_EXCL`: on a path that holds a file the open
fails and the world stays as it is. -/
def ExclusiveCreate {σ : Type} (env : Env σ) : Prop :=
  ∀ path w, (env.fileBytes path w).isSome = true → ∃ e, env.OpenFile path w = (some e, w)

/-! ### A test double for the operating system and the file backend -/

/-- The world of the test double. -/
structure SimWorld where
  /-- The regular files, each path with its bytes. -/
  files : SimFiles
  /-- The directories that exist under the boot root. -/
  dirs : List String
  /-- The image files that cannot be mounted. -/
  corrupt : List String
  /-- The boot copies that cannot be removed. -/
  stuck : List String
  /-- Whether the boot root has no space left. -/
  full : Bool
deriving DecidableEq, Repr

/-- Whether `s` ends with `suffix`. -/
def endsWith (suffix s : List Char) : Bool :=
  (stripLead suffix.reverse s.reverse).isSome

/-- Whether `path` is `dir/base` for a `base` without a slash that ends in `.img`. -/
def inFolder (dir : List Char) (path : String) : Bool :=
  match stripLead (dir ++ ['/']) path.data with
  | none => false
  | some base => !(base.contains '/') && endsWith ".img".data base

/-- The files a pattern `dir/*.img` matches, in the order of the store. -/
def simGlob (pattern : String) (w : SimWorld) : Except Error (List String) :=
  if endsWith "/*.img".data pattern.data then
    .ok ((w.files.map (fun e => e.1)).filter
      (inFolder ((pattern.data.reverse.drop 6).reverse)))
  else .error "syntax error in pattern"

/-- Modelled from the spec: the method `Bakeform.Delete` (its file is not among
the sources): it removes the backing image file and the copied boot content, and
fails when a removal fails. -/
def simDelete (bf : Bakeform) (w : SimWorld) : Option Error × Bakeform × SimWorld :=
  let w1 := { w with files := w.files.filter (fun e => !(e.1 == bf.Location)) }
  if w.stuck.contains bf.bootLocation then
    (some ("remove " ++ bf.bootLocation ++ ": device or resource busy"),
      { bf with MountedOn := [] }, w1)
  else
    (none, { bf with MountedOn := [] },
      { w1 with dirs := w1.dirs.filter (fun d => !(d == bf.bootLocation)) })

/-- The rendering of a bakeform by the test double. -/
def simMarshal : Option Bakeform → String
  | none => "null"
  | some bf => "[\"" ++ bf.Name ++ "\",\"" ++ bf.Location ++ "\"]"

/-- The test double: a file backend rooted at `/boot`, an operating system over
`SimWorld`, and bakeforms with one partition. -/
def simEnv : Env SimWorld where
  Glob := simGlob
  GetBootRoot := "/boot"
  pathJoin := fun a b => a ++ "/" ++ b
  statNotExist := fun path w => !(w.dirs.contains path)
  mount := fun bf w =>
    if w.corrupt.contains bf.Location then (some ("mount " ++ bf.Location ++ ": failed"), bf, w)
    else (none, { bf with MountedOn := [bf.mountRoot ++ "/" ++ bf.Name ++ "/0"] }, w)
  unmount := fun bf w => (none, { bf with MountedOn := [] }, w)
  CopyBootFolder := fun _ name w =>
    if w.full then (some "no space left on device", w)
    else (none, { w with dirs := ("/boot" ++ "/" ++ name) :: w.dirs })
  Delete := simDelete
  OpenFile := fun path w =>
    if (w.files.read path).isSome then (some ("open " ++ path ++ ": file exists"), w)
    else (none, { w with files := w.files.write path "" })
  Copy := fun path body w => (none, { w with files := w.files.write path body })
  Marshal := simMarshal
  fileBytes := fun path w => w.files.read path

/-- An inventory over the folder `/images`, with nothing loaded. -/
def simInv : BakeformInventory :=
  { folder := "/images", mountRoot := "/mnt", Content := [], kpartxPath := "/sbin/kpartx" }

/-- A world with the given image files and no boot copy. -/
def simWorld (files : SimFiles) : SimWorld :=
  { files := files, dirs := [], corrupt := [], stuck := [], full := false }

/-- A world with the images `a` and `b` and no boot copy. -/
def simTwo : SimWorld :=
  simWorld [("/images/a.img", "A"), ("/images/b.img", "B")]

/-- The world `simTwo` with a boot root that has no space left. -/
def simTwoFull : SimWorld :=
  { simTwo with full := true }

/-- The world `simTwo` in which the image `b` cannot be mounted. -/
def simTwoCorrupt : SimWorld :=
  { simTwo with corrupt := ["/images/b.img"] }

/-- A world with the image `a` and its boot copy, which cannot be removed. -/
def simStuck : SimWorld :=
  { files := [("/images/a.img", "A")], dirs := ["/boot/a"], corrupt := [],
    stuck := ["/boot/a"], full := false }

/-- The bakeform that `Load` builds for `/images/a.img` in the test double. -/
def simBakeformA : Bakeform :=
  { Name := "a", Location := "/images/a.img", MountedOn := [], mountRoot := "/mnt",
    bootLocation := "/boot/a", kpartxPath := "/sbin/kpartx" }

/-! # Theorems -/

/-! ## Theorems: nfsOps.go -/

theorem foldl_exportsStep (l : List PiRecord) (acc : String) :
    l.foldl exportsStep acc = acc ++ exportsFile (l.map (fun pi => pi.GetRootLocation)) := by
  induction l generalizing acc with
  | nil => simp [exportsFile]
  | cons pi rest ih =>
    simp only [List.foldl_cons, List.map_cons, exportsFile, ih]
    simp [exportsStep, exportLine, String.append_assoc]

theorem SimFiles.read_write (fs : SimFiles) (path data : String) :
    (fs.write path data).read path = some data := by
  simp [SimFiles.read, SimFiles.write]

theorem regenNfsExports_ok {σ : Type} (env : NfsEnv σ) (w : σ) (piList : List PiRecord)
    (h : env.ListOven w = .ok piList) :
    regenNfsExports env w =
      { err := (env.WriteFile "/etc/exports"
          (exportsFile (piList.map (fun pi => pi.GetRootLocation))) w).1
        world := (env.WriteFile "/etc/exports"
          (exportsFile (piList.map (fun pi => pi.GetRootLocation))) w).2
        stdout := ["Generated new exports file:\n" ++
          exportsFile (piList.map (fun pi => pi.GetRootLocation)) ++ "\n"] } := by
  simp [regenNfsExports, h, foldl_exportsStep]

/-- C1: when `ListOven` returns the list `piList`, `regenNfsExports` makes one call
`WriteFile("/etc/exports", data)` whose data is the concatenation, in list order, of the
export lines of the root locations, independent of the previous content, and returns
that call's error; over a store whose write truncates, the file then holds exactly
that concatenation whatever it held before; for `/srv/pi1` and `/srv/pi2` these are the
two lines of the specification, and a following run with `/srv/pi1` alone leaves the one
line. -/
theorem regenNfsExports_writes_exports {σ : Type} (env : NfsEnv σ) (w : σ)
    (piList : List PiRecord) (h : env.ListOven w = .ok piList) :
    (regenNfsExports env w).err =
        (env.WriteFile "/etc/exports"
          (exportsFile (piList.map (fun pi => pi.GetRootLocation))) w).1 ∧
    (regenNfsExports env w).world =
        (env.WriteFile "/etc/exports"
          (exportsFile (piList.map (fun pi => pi.GetRootLocation))) w).2 ∧
    (∀ (roots : List String) (prev : SimFiles),
        (regenNfsExports (simNfsEnv roots) prev).err = none ∧
        (regenNfsExports (simNfsEnv roots) prev).world.read "/etc/exports"
          = some (exportsFile roots)) ∧
    exportsFile ["/srv/pi1", "/srv/pi2"] =
        "/srv/pi1 *(rw,sync,no_subtree_check,no_root_squash)\n/srv/pi2 *(rw,sync,no_subtree_check,no_root_squash)\n" ∧
    (∀ prev : SimFiles,
        (regenNfsExports (simNfsEnv ["/srv/pi1"])
          (regenNfsExports (simNfsEnv ["/srv/pi1", "/srv/pi2"]) prev).world).world.read
            "/etc/exports"
          = some "/srv/pi1 *(rw,sync,no_subtree_check,no_root_squash)\n") := by
  have hsim : ∀ (roots : List String) (prev : SimFiles),
      (regenNfsExports (simNfsEnv roots) prev).err = none ∧
      (regenNfsExports (simNfsEnv roots) prev).world.read "/etc/exports"
        = some (exportsFile roots) := by
    intro roots prev
    have hl : (simNfsEnv roots).ListOven prev = .ok (roots.map PiRecord.mk) := rfl
    rw [regenNfsExports_ok _ _ _ hl]
    have hm : (roots.map PiRecord.mk).map (fun pi => pi.GetRootLocation) = roots := by
      simp [List.map_map, Function.comp_def]
    simp only [hm]
    exact ⟨rfl, SimFiles.read_write _ _ _⟩
  rw [regenNfsExports_ok env w piList h]
  refine ⟨rfl, rfl, hsim, by decide, ?_⟩
  intro prev
  rw [(hsim ["/srv/pi1"] _).2]
  decide

/-- The witness of C1: the test double listing `/srv/pi1` and `/srv/pi2`, over a stale file. -/
theorem regenNfsExports_writes_exports_witness :
    (simNfsEnv ["/srv/pi1", "/srv/pi2"]).ListOven [("/etc/exports", "/old *(ro)\n")]
      = .ok [⟨"/srv/pi1"⟩, ⟨"/srv/pi2"⟩] ∧
    (regenNfsExports (simNfsEnv ["/srv/pi1", "/srv/pi2"]) [("/etc/exports", "/old *(ro)\n")]).err
      = none ∧
    (regenNfsExports (simNfsEnv ["/srv/pi1", "/srv/pi2"])
        [("/etc/exports", "/old *(ro)\n")]).world
      = [("/etc/exports",
          "/srv/pi1 *(rw,sync,no_subtree_check,no_root_squash)\n/srv/pi2 *(rw,sync,no_subtree_check,no_root_squash)\n")] :=
  ⟨rfl,
   (regenNfsExports_writes_exports (simNfsEnv ["/srv/pi1", "/srv/pi2"])
      [("/etc/exports", "/old *(ro)\n")] _ rfl).1,
   by decide⟩

/-! ## Theorems: the name of an image -/

/-- C6: at the image path `/images/a.imgb.img`, whose last segment is `a.imgb` followed
by `.img`, `Load` names the bakeform `ab.img`: the first `.img` of the segment is
removed, not the trailing extension, so the name is not `a.imgb`. -/
theorem imageName_removes_first_occurrence :
    lastPart "/images/a.imgb.img" = "a.imgb" ++ ".img" ∧
    imageName "/images/a.imgb.img" = "ab.img" ∧
    imageName "/images/a.imgb.img" ≠ "a.imgb" ∧
    (Load simEnv simInv (simWorld [("/images/a.imgb.img", "")])).ret = .nil ∧
    (Load simEnv simInv (simWorld [("/images/a.imgb.img", "")])).inv.Content.keys
      = ["ab.img"] := by
  refine ⟨by decide, by decide, by decide, by decide, by decide⟩

/-! ## Theorems: the handlers -/

/-- C7: the upload of the name `a.imgb` into an empty folder succeeds in all three steps
(the file `/images/a.imgb.img` holds the body and `Load` returns nil), yet `Content` has
no key `a.imgb`, its only key is `ab.img`, and the handler answers 201 with the
rendering of the nil bakeform. -/
theorem UploadHandler_loses_uploaded_name :
    (UploadHandler simEnv simInv "a.imgb" "BYTES" Response.fresh (simWorld [])).world.files
      = [("/images/a.imgb.img", "BYTES")] ∧
    (Load simEnv simInv
        (simWorld [("/images/a.imgb.img", "BYTES")])).ret = .nil ∧
    (UploadHandler simEnv simInv "a.imgb" "BYTES" Response.fresh (simWorld [])).inv.Content.get
      "a.imgb" = none ∧
    (UploadHandler simEnv simInv "a.imgb" "BYTES" Response.fresh (simWorld [])).inv.Content.keys
      = ["ab.img"] ∧
    (UploadHandler simEnv simInv "a.imgb" "BYTES" Response.fresh (simWorld [])).resp
      = { status := some 201, body := "null" } := by
  refine ⟨by decide, by decide, by decide, by decide, by decide⟩

theorem Load_glob_error {σ : Type} (env : Env σ) (i : BakeformInventory) (w : σ) (e : Error)
    (h : env.Glob (i.folder ++ "/*.img") w = .error e) :
    Load env i w = { ret := .err e, inv := i, world := w,
                     trace := [.loadCalled, .glob (i.folder ++ "/*.img")] } := by
  simp only [Load, h]

theorem Load_loop_nil {σ : Type} (env : Env σ) (i : BakeformInventory) (w : σ)
    (imgs : List String) (h : env.Glob (i.folder ++ "/*.img") w = .ok imgs)
    (hr : (loadLoop env i imgs [] w).ret = .nil) :
    Load env i w =
      { ret := .nil, inv := { i with Content := (loadLoop env i imgs [] w).list },
        world := (loadLoop env i imgs [] w).world,
        trace := .loadCalled :: .glob (i.folder ++ "/*.img") ::
          (loadLoop env i imgs [] w).trace } := by
  simp only [Load, h, hr]

theorem Load_loop_stop {σ : Type} (env : Env σ) (i : BakeformInventory) (w : σ)
    (imgs : List String) (h : env.Glob (i.folder ++ "/*.img") w = .ok imgs)
    (hr : (loadLoop env i imgs [] w).ret ≠ .nil) :
    Load env i w =
      { ret := (loadLoop env i imgs [] w).ret, inv := i,
        world := (loadLoop env i imgs [] w).world,
        trace := .loadCalled :: .glob (i.folder ++ "/*.img") ::
          (loadLoop env i imgs [] w).trace } := by
  simp only [Load, h]

theorem Load_trace_head {σ : Type} (env : Env σ) (i : BakeformInventory) (w : σ) :
    ∃ rest, (Load env i w).trace = Event.loadCalled :: rest := by
  cases hg : env.Glob (i.folder ++ "/*.img") w with
  | error e => rw [Load_glob_error env i w e hg]; exact ⟨_, rfl⟩
  | ok imgs =>
    by_cases hr : (loadLoop env i imgs [] w).ret = .nil
    · rw [Load_loop_nil env i w imgs hg hr]; exact ⟨_, rfl⟩
    · rw [Load_loop_stop env i w imgs hg hr]; exact ⟨_, rfl⟩

/-- C3: under the exclusive create of the operating system, when the file
`folder/name.img` exists, `UploadHandler` answers 403, leaves the world as it was (so
the bytes of every file, the existing one included, are unchanged), makes no `io.Copy`
call, does not call `Load`, and leaves the inventory as it was. -/
theorem UploadHandler_conflict {σ : Type} (env : Env σ) (hx : ExclusiveCreate env)
    (i : BakeformInventory) (name body : String) (w : σ)
    (h : (env.fileBytes (i.folder ++ "/" ++ name ++ ".img") w).isSome = true) :
    (UploadHandler env i name body Response.fresh w).resp.status = some 403 ∧
    (UploadHandler env i name body Response.fresh w).world = w ∧
    env.fileBytes (i.folder ++ "/" ++ name ++ ".img")
        (UploadHandler env i name body Response.fresh w).world
      = env.fileBytes (i.folder ++ "/" ++ name ++ ".img") w ∧
    (∀ p b, Event.ioCopy p b ∉ (UploadHandler env i name body Response.fresh w).trace) ∧
    Event.loadCalled ∉ (UploadHandler env i name body Response.fresh w).trace ∧
    (UploadHandler env i name body Response.fresh w).inv = i ∧
    (UploadHandler env i name body Response.fresh w).panicked = false := by
  obtain ⟨e, he⟩ := hx _ w h
  simp [UploadHandler, he, Response.WriteHeader, Response.Write, Response.fresh]

theorem simEnv_exclusiveCreate : ExclusiveCreate simEnv := by
  intro path w h
  refine ⟨"open " ++ path ++ ": file exists", ?_⟩
  have h2 : (w.files.read path).isSome = true := h
  simp [simEnv, h2]

/-- The witness of C3: a second upload of `a` over the existing `/images/a.img`. -/
theorem UploadHandler_conflict_witness :
    (simEnv.fileBytes ("/images" ++ "/" ++ "a" ++ ".img")
        (simWorld [("/images/a.img", "OLD")])).isSome = true ∧
    (UploadHandler simEnv simInv "a" "NEW" Response.fresh
        (simWorld [("/images/a.img", "OLD")])).resp.status = some 403 ∧
    (UploadHandler simEnv simInv "a" "NEW" Response.fresh
        (simWorld [("/images/a.img", "OLD")])).world = simWorld [("/images/a.img", "OLD")] :=
  ⟨by decide,
   (UploadHandler_conflict simEnv simEnv_exclusiveCreate simInv "a" "NEW"
      (simWorld [("/images/a.img", "OLD")]) (by decide)).1,
   (UploadHandler_conflict simEnv simEnv_exclusiveCreate simInv "a" "NEW"
      (simWorld [("/images/a.img", "OLD")]) (by decide)).2.1⟩

/-- C8, the counterexample: the image `a` is loaded and its boot copy cannot be removed;
`Delete` fails after removing the image file, `DeleteHandler` answers 500 and returns
without calling `Load`, and `Content` still has the key `a`. -/
theorem DeleteHandler_no_reload_after_failed_delete :
    (Load simEnv simInv
        { simWorld [("/images/a.img", "A")] with stuck := ["/boot/a"] }).inv.Content.keys
      = ["a"] ∧
    (DeleteHandler simEnv
        (Load simEnv simInv
          { simWorld [("/images/a.img", "A")] with stuck := ["/boot/a"] }).inv
        "a" Response.fresh
        (Load simEnv simInv
          { simWorld [("/images/a.img", "A")] with stuck := ["/boot/a"] }).world).resp.status
      = some 500 ∧
    Event.loadCalled ∉
      (DeleteHandler simEnv
        (Load simEnv simInv
          { simWorld [("/images/a.img", "A")] with stuck := ["/boot/a"] }).inv
        "a" Response.fresh
        (Load simEnv simInv
          { simWorld [("/images/a.img", "A")] with stuck := ["/boot/a"] }).world).trace ∧
    (DeleteHandler simEnv
        (Load simEnv simInv
          { simWorld [("/images/a.img", "A")] with stuck := ["/boot/a"] }).inv
        "a" Response.fresh
        (Load simEnv simInv
          { simWorld [("/images/a.img", "A")] with stuck := ["/boot/a"] }).world).world.files
      = [] ∧
    (DeleteHandler simEnv
        (Load simEnv simInv
          { simWorld [("/images/a.img", "A")] with stuck := ["/boot/a"] }).inv
        "a" Response.fresh
        (Load simEnv simInv
          { simWorld [("/images/a.img", "A")] with stuck := ["/boot/a"] }).world).inv.Content.keys
      = ["a"] := by
  refine ⟨by decide, by decide, by decide, by decide, by decide⟩

/-- C8, amended: for a bakeform `bf` that `Content` holds under `name`, when its `Delete`
returns the error `err`, `DeleteHandler` answers 500 with the error text and returns
without calling `Load`: its only calls are the `Delete` and the log line, the world is
the one `Delete` left, and `Content` keeps its entries, the one of `name` being the
bakeform as `Delete` left it. -/
theorem DeleteHandler_delete_error {σ : Type} (env : Env σ) (i : BakeformInventory)
    (name : String) (w : σ) (bf bf1 : Bakeform) (err : Error) (w1 : σ)
    (hk : i.Content.get name = some bf) (hd : env.Delete bf w = (some err, bf1, w1)) :
    (DeleteHandler env i name Response.fresh w).resp = { status := some 500, body := err } ∧
    (DeleteHandler env i name Response.fresh w).trace
      = [Event.delete bf, Event.log ("Error deleting bakeform: " ++ err)] ∧
    Event.loadCalled ∉ (DeleteHandler env i name Response.fresh w).trace ∧
    (DeleteHandler env i name Response.fresh w).world = w1 ∧
    (DeleteHandler env i name Response.fresh w).inv
      = { i with Content := i.Content.set name bf1 } ∧
    (DeleteHandler env i name Response.fresh w).panicked = false := by
  simp [DeleteHandler, hk, hd, Response.WriteHeader, Response.Write, Response.fresh]

/-- C9: for a name that is no key of `Content`, `DeleteHandler` answers 404 with the body
`Bakeform not found`, does not panic, makes no call at all (neither `Delete` nor `Load`)
and leaves inventory and world as they were; for a name whose entry is `bf`, its first
call is `bf.Delete()`, and when that returns nil the next calls are those of `Load`, run
on the world `Delete` left, whose inventory and world are the handler's. -/
theorem DeleteHandler_lookup {σ : Type} (env : Env σ) (i : BakeformInventory)
    (name : String) (w : σ) :
    (i.Content.get name = none →
      DeleteHandler env i name Response.fresh w =
        { resp := { status := some 404, body := "Bakeform not found" }, inv := i,
          world := w, trace := [], panicked := false }) ∧
    (∀ bf, i.Content.get name = some bf →
      (∃ rest, (DeleteHandler env i name Response.fresh w).trace = Event.delete bf :: rest) ∧
      ((env.Delete bf w).1 = none →
        (∃ rest, (DeleteHandler env i name Response.fresh w).trace =
          Event.delete bf ::
            (Load env { i with Content := i.Content.set name (env.Delete bf w).2.1 }
              (env.Delete bf w).2.2).trace ++ rest) ∧
        Event.loadCalled ∈ (DeleteHandler env i name Response.fresh w).trace ∧
        (DeleteHandler env i name Response.fresh w).inv =
          (Load env { i with Content := i.Content.set name (env.Delete bf w).2.1 }
              (env.Delete bf w).2.2).inv ∧
        (DeleteHandler env i name Response.fresh w).world =
          (Load env { i with Content := i.Content.set name (env.Delete bf w).2.1 }
              (env.Delete bf w).2.2).world)) := by
  constructor
  · intro h
    simp [DeleteHandler, h, Response.WriteHeader, Response.Write, Response.fresh]
  · intro bf h
    rcases hd : env.Delete bf w with ⟨e, bf1, w1⟩
    cases e with
    | some err =>
      refine ⟨⟨[.log ("Error deleting bakeform: " ++ err)], ?_⟩, ?_⟩
      · simp only [DeleteHandler, h, hd]
      · intro hn; simp at hn
    | none =>
      obtain ⟨lrest, hl⟩ := Load_trace_head env
        { i with Content := i.Content.set name bf1 } w1
      have key : (∃ rest, (DeleteHandler env i name Response.fresh w).trace =
            Event.delete bf ::
              (Load env { i with Content := i.Content.set name bf1 } w1).trace ++ rest) ∧
          (DeleteHandler env i name Response.fresh w).inv =
            (Load env { i with Content := i.Content.set name bf1 } w1).inv ∧
          (DeleteHandler env i name Response.fresh w).world =
            (Load env { i with Content := i.Content.set name bf1 } w1).world := by
        cases hr : (Load env { i with Content := i.Content.set name bf1 } w1).ret with
        | nil =>
          refine ⟨⟨[], ?_⟩, ?_, ?_⟩ <;> simp [DeleteHandler, h, hd, hr]
        | err e =>
          refine ⟨⟨[.log ("Error Reloading bakerforms: " ++ e)], ?_⟩, ?_, ?_⟩ <;>
            simp [DeleteHandler, h, hd, hr]
        | panic =>
          refine ⟨⟨[], ?_⟩, ?_, ?_⟩ <;> simp [DeleteHandler, h, hd, hr]
      obtain ⟨⟨rest, ht⟩, hi, hw⟩ := key
      refine ⟨⟨_, ht⟩, fun _ => ⟨⟨rest, ht⟩, ?_, hi, hw⟩⟩
      rw [ht, hl]
      simp

/-- The witness of C9: the name `zzz` is unknown to the loaded inventory, the name `a` is
known and its `Delete` succeeds. -/
theorem DeleteHandler_lookup_witness :
    (Load simEnv simInv (simWorld [("/images/a.img", "A")])).inv.Content.get "zzz" = none ∧
    (DeleteHandler simEnv (Load simEnv simInv (simWorld [("/images/a.img", "A")])).inv "zzz"
        Response.fresh (Load simEnv simInv (simWorld [("/images/a.img", "A")])).world).resp
      = { status := some 404, body := "Bakeform not found" } ∧
    (∃ bf, (Load simEnv simInv (simWorld [("/images/a.img", "A")])).inv.Content.get "a"
        = some bf ∧ (simEnv.Delete bf
          (Load simEnv simInv (simWorld [("/images/a.img", "A")])).world).1 = none ∧
      Event.loadCalled ∈
        (DeleteHandler simEnv (Load simEnv simInv (simWorld [("/images/a.img", "A")])).inv "a"
          Response.fresh
          (Load simEnv simInv (simWorld [("/images/a.img", "A")])).world).trace) :=
  ⟨by decide,
   congrArg HandlerOut.resp
    ((DeleteHandler_lookup simEnv (Load simEnv simInv (simWorld [("/images/a.img", "A")])).inv
      "zzz" (Load simEnv simInv (simWorld [("/images/a.img", "A")])).world).1 (by decide)),
   ⟨simBakeformA, by decide, by decide,
    (((DeleteHandler_lookup simEnv
      (Load simEnv simInv (simWorld [("/images/a.img", "A")])).inv
      "a" (Load simEnv simInv (simWorld [("/images/a.img", "A")])).world).2 simBakeformA
        (by decide)).2 (by decide)).2.1⟩⟩

/-! ## Theorems: the loop of Load -/

theorem loadImage_present {σ : Type} (env : Env σ) (i : BakeformInventory) (img : String)
    (w : σ) (h : env.statNotExist (env.pathJoin env.GetBootRoot (imageName img)) w = false) :
    loadImage env i img w =
      .next (newBakeform env i img) w
        [.log ("Loading image " ++ imageName img ++ "\n"),
         .stat (env.pathJoin env.GetBootRoot (imageName img)) false] := by
  simp [loadImage, newBakeform, h]

theorem loadImage_mount_error {σ : Type} (env : Env σ) (i : BakeformInventory) (img : String)
    (w : σ) (h : env.statNotExist (env.pathJoin env.GetBootRoot (imageName img)) w = true)
    (err : Error) (bf1 : Bakeform) (w1 : σ)
    (hm : env.mount (newBakeform env i img) w = (some err, bf1, w1)) :
    loadImage env i img w =
      .stop (.err err) w1
        [.log ("Loading image " ++ imageName img ++ "\n"),
         .stat (env.pathJoin env.GetBootRoot (imageName img)) true,
         .mount (imageName img)] := by
  have hm2 : env.mount
      { Name := imageName img, Location := img, MountedOn := [], mountRoot := i.mountRoot,
        bootLocation := env.pathJoin env.GetBootRoot (imageName img),
        kpartxPath := i.kpartxPath } w = (some err, bf1, w1) := hm
  simp [loadImage, newBakeform, h, hm2]

theorem loadImage_no_partition {σ : Type} (env : Env σ) (i : BakeformInventory) (img : String)
    (w : σ) (h : env.statNotExist (env.pathJoin env.GetBootRoot (imageName img)) w = true)
    (bf1 : Bakeform) (w1 : σ)
    (hm : env.mount (newBakeform env i img) w = (none, bf1, w1))
    (hmo : bf1.MountedOn = []) :
    loadImage env i img w =
      .stop .panic w1
        [.log ("Loading image " ++ imageName img ++ "\n"),
         .stat (env.pathJoin env.GetBootRoot (imageName img)) true,
         .mount (imageName img)] := by
  have hm2 : env.mount
      { Name := imageName img, Location := img, MountedOn := [], mountRoot := i.mountRoot,
        bootLocation := env.pathJoin env.GetBootRoot (imageName img),
        kpartxPath := i.kpartxPath } w = (none, bf1, w1) := hm
  simp [loadImage, newBakeform, h, hm2, hmo]

theorem loadImage_copy_error {σ : Type} (env : Env σ) (i : BakeformInventory) (img : String)
    (w : σ) (h : env.statNotExist (env.pathJoin env.GetBootRoot (imageName img)) w = true)
    (bf1 : Bakeform) (w1 : σ) (m0 : String) (ms : List String) (err : Error)
    (hm : env.mount (newBakeform env i img) w = (none, bf1, w1))
    (hmo : bf1.MountedOn = m0 :: ms)
    (hc : (env.CopyBootFolder (m0 ++ "/") (imageName img) w1).1 = some err) :
    loadImage env i img w =
      .stop (.err err)
        (env.unmount bf1 (env.CopyBootFolder (m0 ++ "/") (imageName img) w1).2).2.2
        [.log ("Loading image " ++ imageName img ++ "\n"),
         .stat (env.pathJoin env.GetBootRoot (imageName img)) true,
         .mount (imageName img),
         .copyBoot (m0 ++ "/") (imageName img),
         .unmount (imageName img)] := by
  have hm2 : env.mount
      { Name := imageName img, Location := img, MountedOn := [], mountRoot := i.mountRoot,
        bootLocation := env.pathJoin env.GetBootRoot (imageName img),
        kpartxPath := i.kpartxPath } w = (none, bf1, w1) := hm
  simp [loadImage, newBakeform, h, hm2, hmo, hc]

theorem loadImage_copy_ok {σ : Type} (env : Env σ) (i : BakeformInventory) (img : String)
    (w : σ) (h : env.statNotExist (env.pathJoin env.GetBootRoot (imageName img)) w = true)
    (bf1 : Bakeform) (w1 : σ) (m0 : String) (ms : List String)
    (hm : env.mount (newBakeform env i img) w = (none, bf1, w1))
    (hmo : bf1.MountedOn = m0 :: ms)
    (hc : (env.CopyBootFolder (m0 ++ "/") (imageName img) w1).1 = none) :
    loadImage env i img w =
      .next (env.unmount bf1 (env.CopyBootFolder (m0 ++ "/") (imageName img) w1).2).2.1
        (env.unmount bf1 (env.CopyBootFolder (m0 ++ "/") (imageName img) w1).2).2.2
        [.log ("Loading image " ++ imageName img ++ "\n"),
         .stat (env.pathJoin env.GetBootRoot (imageName img)) true,
         .mount (imageName img),
         .copyBoot (m0 ++ "/") (imageName img),
         .unmount (imageName img)] := by
  have hm2 : env.mount
      { Name := imageName img, Location := img, MountedOn := [], mountRoot := i.mountRoot,
        bootLocation := env.pathJoin env.GetBootRoot (imageName img),
        kpartxPath := i.kpartxPath } w = (none, bf1, w1) := hm
  simp [loadImage, newBakeform, h, hm2, hmo, hc]

theorem loadLoop_nil {σ : Type} (env : Env σ) (i : BakeformInventory)
    (list : BakeformList) (w : σ) :
    loadLoop env i [] list w = { ret := .nil, list := list, world := w, trace := [] } := rfl

theorem loadLoop_cons_stop {σ : Type} (env : Env σ) (i : BakeformInventory) (img : String)
    (rest : List String) (list : BakeformList) (w : σ) (r : Ret) (w1 : σ) (tr : List Event)
    (h : loadImage env i img w = .stop r w1 tr) :
    loadLoop env i (img :: rest) list w = { ret := r, list := list, world := w1, trace := tr } := by
  simp only [loadLoop, h]

theorem loadLoop_cons_next {σ : Type} (env : Env σ) (i : BakeformInventory) (img : String)
    (rest : List String) (list : BakeformList) (w : σ) (bf : Bakeform) (w1 : σ)
    (tr : List Event) (h : loadImage env i img w = .next bf w1 tr) :
    loadLoop env i (img :: rest) list w =
      { ret := (loadLoop env i rest (list.set (imageName img) bf) w1).ret
        list := (loadLoop env i rest (list.set (imageName img) bf) w1).list
        world := (loadLoop env i rest (list.set (imageName img) bf) w1).world
        trace := tr ++ (loadLoop env i rest (list.set (imageName img) bf) w1).trace } := by
  simp only [loadLoop, h]

/-- The body of the loop never returns nil from `Load`: it returns an error or panics. -/
theorem loadImage_stop_ne_nil {σ : Type} (env : Env σ) (i : BakeformInventory) (img : String)
    (w : σ) (r : Ret) (w1 : σ) (tr : List Event)
    (h : loadImage env i img w = .stop r w1 tr) : r ≠ .nil := by
  intro hr
  subst hr
  unfold loadImage at h
  simp only at h
  split at h
  · split at h
    · cases h
    · split at h
      · cases h
      · split at h <;> cases h
  · cases h

/-- The loop over `pre ++ rest` runs the loop over `pre` and, when that ends with
nil, goes on with the loop over `rest` from where it ended. -/
theorem loadLoop_append {σ : Type} (env : Env σ) (i : BakeformInventory)
    (pre rest : List String) (list : BakeformList) (w : σ)
    (h : (loadLoop env i pre list w).ret = .nil) :
    loadLoop env i (pre ++ rest) list w =
      { ret := (loadLoop env i rest (loadLoop env i pre list w).list
                  (loadLoop env i pre list w).world).ret
        list := (loadLoop env i rest (loadLoop env i pre list w).list
                  (loadLoop env i pre list w).world).list
        world := (loadLoop env i rest (loadLoop env i pre list w).list
                  (loadLoop env i pre list w).world).world
        trace := (loadLoop env i pre list w).trace ++
          (loadLoop env i rest (loadLoop env i pre list w).list
                  (loadLoop env i pre list w).world).trace } := by
  induction pre generalizing list w with
  | nil => simp [loadLoop_nil]
  | cons img pre ih =>
    cases hs : loadImage env i img w with
    | stop r w1 tr =>
      rw [loadLoop_cons_stop env i img pre list w r w1 tr hs] at h
      exact absurd h (loadImage_stop_ne_nil env i img w r w1 tr hs)
    | next bf w1 tr =>
      rw [loadLoop_cons_next env i img pre list w bf w1 tr hs] at h
      simp only at h
      rw [List.cons_append, loadLoop_cons_next env i img (pre ++ rest) list w bf w1 tr hs,
        loadLoop_cons_next env i img pre list w bf w1 tr hs, ih _ _ h]
      simp

/-! ## Theorems: Load -/

theorem Load_glob_ok {σ : Type} (env : Env σ) (i : BakeformInventory) (w : σ)
    (imgs : List String) (h : env.Glob (i.folder ++ "/*.img") w = .ok imgs) :
    (Load env i w).ret = (loadLoop env i imgs [] w).ret ∧
    (Load env i w).world = (loadLoop env i imgs [] w).world ∧
    (Load env i w).trace = .loadCalled :: .glob (i.folder ++ "/*.img") ::
        (loadLoop env i imgs [] w).trace ∧
    ((loadLoop env i imgs [] w).ret = .nil →
      (Load env i w).inv = { i with Content := (loadLoop env i imgs [] w).list }) ∧
    ((loadLoop env i imgs [] w).ret ≠ .nil → (Load env i w).inv = i) := by
  by_cases hr : (loadLoop env i imgs [] w).ret = .nil
  · rw [Load_loop_nil env i w imgs h hr]
    exact ⟨hr.symm, rfl, rfl, fun _ => rfl, fun hn => absurd hr hn⟩
  · rw [Load_loop_stop env i w imgs h hr]
    exact ⟨rfl, rfl, rfl, fun hn => absurd hn hr, fun _ => rfl⟩

/-- C4: let `Glob` enumerate `pre ++ img :: rest`, let the loop pass `pre`, and let the
boot location of `img` be absent and the mount succeed with the mounted paths
`m0 :: ms`. Then `Load` calls `CopyBootFolder(m0 + "/", name)` and next `unmount`, once, on
the mounted bakeform. When the copy failed with `err`, `Load` returns `err` after that
unmount, which is its last call, from the world the unmount left, with the inventory
untouched; when the copy succeeded the loop goes on with `rest` from the world the
unmount left. -/
theorem Load_copy_then_unmount {σ : Type} (env : Env σ) (i : BakeformInventory) (w : σ)
    (pre : List String) (img : String) (rest : List String)
    (bf1 : Bakeform) (w1 : σ) (m0 : String) (ms : List String)
    (hg : env.Glob (i.folder ++ "/*.img") w = .ok (pre ++ img :: rest))
    (hpre : (loadLoop env i pre [] w).ret = .nil)
    (habs : env.statNotExist (env.pathJoin env.GetBootRoot (imageName img))
      (loadLoop env i pre [] w).world = true)
    (hm : env.mount (newBakeform env i img) (loadLoop env i pre [] w).world = (none, bf1, w1))
    (hmo : bf1.MountedOn = m0 :: ms) :
    (∀ err, (env.CopyBootFolder (m0 ++ "/") (imageName img) w1).1 = some err →
      Load env i w =
        { ret := .err err, inv := i,
          world := (env.unmount bf1 (env.CopyBootFolder (m0 ++ "/") (imageName img) w1).2).2.2,
          trace := .loadCalled :: .glob (i.folder ++ "/*.img") ::
            ((loadLoop env i pre [] w).trace ++
              [.log ("Loading image " ++ imageName img ++ "\n"),
               .stat (env.pathJoin env.GetBootRoot (imageName img)) true,
               .mount (imageName img),
               .copyBoot (m0 ++ "/") (imageName img),
               .unmount (imageName img)]) }) ∧
    ((env.CopyBootFolder (m0 ++ "/") (imageName img) w1).1 = none →
      (Load env i w).trace =
        .loadCalled :: .glob (i.folder ++ "/*.img") ::
          ((loadLoop env i pre [] w).trace ++
            [.log ("Loading image " ++ imageName img ++ "\n"),
             .stat (env.pathJoin env.GetBootRoot (imageName img)) true,
             .mount (imageName img),
             .copyBoot (m0 ++ "/") (imageName img),
             .unmount (imageName img)] ++
            (loadLoop env i rest
              ((loadLoop env i pre [] w).list.set (imageName img)
                (env.unmount bf1 (env.CopyBootFolder (m0 ++ "/") (imageName img) w1).2).2.1)
              (env.unmount bf1
                (env.CopyBootFolder (m0 ++ "/") (imageName img) w1).2).2.2).trace)) := by
  obtain ⟨hret, hworld, htrace, -, hinv⟩ := Load_glob_ok env i w _ hg
  have happ := loadLoop_append env i pre (img :: rest) [] w hpre
  constructor
  · intro err hc
    have hi := loadImage_copy_error env i img _ habs bf1 w1 m0 ms err hm hmo hc
    have hl := loadLoop_cons_stop env i img rest (loadLoop env i pre [] w).list _ _ _ _ hi
    rw [hl] at happ
    have hne : (loadLoop env i (pre ++ img :: rest) [] w).ret ≠ .nil := by
      rw [happ]; simp
    rw [Load_loop_stop env i w _ hg hne, happ]
  · intro hc
    have hi := loadImage_copy_ok env i img _ habs bf1 w1 m0 ms hm hmo hc
    have hl := loadLoop_cons_next env i img rest (loadLoop env i pre [] w).list _ _ _ _ hi
    rw [hl] at happ
    rw [htrace, happ]
    simp

theorem BakeformList.mem_keys_set (l : BakeformList) (name : String) (bf : Bakeform)
    (k : String) : k ∈ (l.set name bf).keys ↔ k = name ∨ k ∈ l.keys := by
  induction l with
  | nil => simp [BakeformList.set, BakeformList.keys]
  | cons e rest ih =>
    obtain ⟨k0, v0⟩ := e
    by_cases hk : k0 = name
    · subst hk
      simp [BakeformList.set, BakeformList.keys]
    · have ih2 : k ∈ List.map (fun e => e.1) (BakeformList.set rest name bf) ↔
          k = name ∨ k ∈ List.map (fun e => e.1) rest := ih
      simp only [BakeformList.set, BakeformList.keys, hk, if_false, List.map_cons,
        List.mem_cons, ih2]
      tauto

theorem BakeformList.get_isSome_iff (l : BakeformList) (k : String) :
    (l.get k).isSome = true ↔ k ∈ l.keys := by
  induction l with
  | nil => simp [BakeformList.get, BakeformList.keys]
  | cons e rest ih =>
    obtain ⟨k0, v0⟩ := e
    have ih2 : (BakeformList.get rest k).isSome = true ↔ k ∈ List.map (fun e => e.1) rest := ih
    by_cases hk : k0 = k
    · simp [BakeformList.get, BakeformList.keys, hk]
    · have hk2 : ¬ k = k0 := fun h => hk h.symm
      simp [BakeformList.get, BakeformList.keys, hk, hk2, ih2]

/-- After a loop that ends with nil, the keys of the mapping are those it started
with and the names of the images. -/
theorem loadLoop_keys {σ : Type} (env : Env σ) (i : BakeformInventory) (imgs : List String)
    (list : BakeformList) (w : σ) (h : (loadLoop env i imgs list w).ret = .nil) (k : String) :
    k ∈ (loadLoop env i imgs list w).list.keys ↔ k ∈ list.keys ∨ k ∈ imgs.map imageName := by
  induction imgs generalizing list w with
  | nil => simp [loadLoop_nil]
  | cons img rest ih =>
    cases hs : loadImage env i img w with
    | stop r w1 tr =>
      rw [loadLoop_cons_stop env i img rest list w r w1 tr hs] at h
      exact absurd h (loadImage_stop_ne_nil env i img w r w1 tr hs)
    | next bf w1 tr =>
      rw [loadLoop_cons_next env i img rest list w bf w1 tr hs] at h ⊢
      simp only at h ⊢
      rw [ih _ _ h, BakeformList.mem_keys_set]
      simp only [List.map_cons, List.mem_cons]
      tauto

/-- The loop does not read the `Content` of the inventory. -/
theorem loadLoop_content_irrelevant {σ : Type} (env : Env σ) (i : BakeformInventory)
    (c : BakeformList) (imgs : List String) (list : BakeformList) (w : σ) :
    loadLoop env { i with Content := c } imgs list w = loadLoop env i imgs list w := by
  induction imgs generalizing list w with
  | nil => rfl
  | cons img rest ih =>
    have hi : loadImage env { i with Content := c } img w = loadImage env i img w := rfl
    cases hs : loadImage env i img w with
    | stop r w1 tr =>
      rw [loadLoop_cons_stop env i img rest list w r w1 tr hs,
        loadLoop_cons_stop env _ img rest list w r w1 tr (hi.trans hs)]
    | next bf w1 tr =>
      rw [loadLoop_cons_next env i img rest list w bf w1 tr hs,
        loadLoop_cons_next env _ img rest list w bf w1 tr (hi.trans hs), ih]

/-- C5: when `Load` does not return nil (an error of the enumeration, of a mount or of
a copy, at any image, or a panic) the inventory is exactly what it was; when it returns
nil, only `Content` differs, it is the mapping the loop built from the empty one, and its
keys are exactly the names of the image files this call enumerated; and whatever
`Content` held before has no influence on the result or on the new `Content`. -/
theorem Load_replaces_content {σ : Type} (env : Env σ) (i : BakeformInventory) (w : σ) :
    ((Load env i w).ret ≠ .nil → (Load env i w).inv = i) ∧
    ((Load env i w).ret = .nil →
      ∃ imgs, env.Glob (i.folder ++ "/*.img") w = .ok imgs ∧
        (Load env i w).inv = { i with Content := (loadLoop env i imgs [] w).list } ∧
        (∀ k, ((Load env i w).inv.Content.get k).isSome = true ↔ k ∈ imgs.map imageName)) ∧
    (∀ c, (Load env { i with Content := c } w).ret = (Load env i w).ret ∧
      ((Load env i w).ret = .nil →
        (Load env { i with Content := c } w).inv.Content = (Load env i w).inv.Content)) := by
  cases hg : env.Glob (i.folder ++ "/*.img") w with
  | error e =>
    refine ⟨fun _ => ?_, fun h => ?_, fun c => ⟨?_, fun h => ?_⟩⟩
    · rw [Load_glob_error env i w e hg]
    · rw [Load_glob_error env i w e hg] at h; simp at h
    · rw [Load_glob_error env i w e hg, Load_glob_error env { i with Content := c } w e hg]
    · rw [Load_glob_error env i w e hg] at h; simp at h
  | ok imgs =>
    obtain ⟨hret, -, -, hnil, hstop⟩ := Load_glob_ok env i w imgs hg
    refine ⟨fun h => hstop (hret ▸ h), fun h => ⟨imgs, rfl, hnil (hret ▸ h), fun k => ?_⟩,
      fun c => ?_⟩
    · rw [hnil (hret ▸ h), BakeformList.get_isSome_iff]
      have := loadLoop_keys env i imgs [] w (hret ▸ h) k
      simpa [BakeformList.keys] using this
    · obtain ⟨hret2, -, -, hnil2, -⟩ := Load_glob_ok env { i with Content := c } w imgs hg
      rw [loadLoop_content_irrelevant] at hret2 hnil2
      refine ⟨hret2.trans hret.symm, fun h => ?_⟩
      rw [hnil (hret ▸ h), hnil2 (hret ▸ h)]

/-! ## Theorems: the boot copy is guarded by the presence check -/

theorem rightAfter_of_not_mem (before : List Event) (e : Event) (tr : List Event)
    (h : e ∉ tr) : RightAfter before e tr := by
  intro pre post ht
  exact absurd (by rw [ht]; simp) h

theorem rightAfter_append (before : List Event) (e : Event) (t1 t2 : List Event)
    (h1 : RightAfter before e t1) (h2 : RightAfter before e t2) :
    RightAfter before e (t1 ++ t2) := by
  intro pre post ht
  rcases List.append_eq_append_iff.mp ht with ⟨a, ha, hb⟩ | ⟨c, hc, hd⟩
  · obtain ⟨p0, hp0⟩ := h2 a post hb
    exact ⟨t1 ++ p0, by rw [ha, hp0, List.append_assoc]⟩
  · cases c with
    | nil =>
      simp only [List.nil_append] at hd
      obtain ⟨p0, hp0⟩ := h2 [] post (by simpa using hd.symm)
      have hb : before = [] := by
        have := congrArg List.length hp0
        simp at this
        exact List.eq_nil_of_length_eq_zero (by omega)
      exact ⟨pre, by simp [hb]⟩
    | cons c0 cs =>
      simp only [List.cons_append, List.cons.injEq] at hd
      obtain ⟨hc0, hpost⟩ := hd
      subst hc0
      exact h1 pre cs hc

theorem rightAfter_segment (a before b : List Event) (e : Event)
    (ha : e ∉ a) (hb : e ∉ before) (hc : e ∉ b) :
    RightAfter before e (a ++ before ++ e :: b) := by
  intro pre post ht
  rcases List.append_eq_append_iff.mp ht with ⟨x, hx, hy⟩ | ⟨c, hc1, hd⟩
  · cases x with
    | nil => exact ⟨a, by simpa using hx⟩
    | cons x0 xs =>
      simp only [List.cons_append, List.cons.injEq] at hy
      exact absurd (by rw [hy.2]; simp) hc
  · cases c with
    | nil => exact ⟨a, by simpa using hc1.symm⟩
    | cons c0 cs =>
      simp only [List.cons_append, List.cons.injEq] at hd
      have : e ∈ a ++ before := by rw [hc1, hd.1]; simp
      rcases List.mem_append.mp this with h | h
      · exact absurd h ha
      · exact absurd h hb

/-- The five ways through the body of the loop of `Load`. -/
theorem loadImage_cases {σ : Type} (env : Env σ) (i : BakeformInventory) (img : String)
    (w : σ) :
    (env.statNotExist (env.pathJoin env.GetBootRoot (imageName img)) w = false ∧
      loadImage env i img w =
        .next (newBakeform env i img) w
          [.log ("Loading image " ++ imageName img ++ "\n"),
           .stat (env.pathJoin env.GetBootRoot (imageName img)) false]) ∨
    (∃ err, env.statNotExist (env.pathJoin env.GetBootRoot (imageName img)) w = true ∧
      loadImage env i img w =
        .stop (.err err) (env.mount (newBakeform env i img) w).2.2
          [.log ("Loading image " ++ imageName img ++ "\n"),
           .stat (env.pathJoin env.GetBootRoot (imageName img)) true,
           .mount (imageName img)]) ∨
    (env.statNotExist (env.pathJoin env.GetBootRoot (imageName img)) w = true ∧
      loadImage env i img w =
        .stop .panic (env.mount (newBakeform env i img) w).2.2
          [.log ("Loading image " ++ imageName img ++ "\n"),
           .stat (env.pathJoin env.GetBootRoot (imageName img)) true,
           .mount (imageName img)]) ∨
    (∃ m0 err,
      env.statNotExist (env.pathJoin env.GetBootRoot (imageName img)) w = true ∧
      loadImage env i img w =
        .stop (.err err)
          (env.unmount (env.mount (newBakeform env i img) w).2.1
            (env.CopyBootFolder (m0 ++ "/") (imageName img)
              (env.mount (newBakeform env i img) w).2.2).2).2.2
          [.log ("Loading image " ++ imageName img ++ "\n"),
           .stat (env.pathJoin env.GetBootRoot (imageName img)) true,
           .mount (imageName img),
           .copyBoot (m0 ++ "/") (imageName img),
           .unmount (imageName img)]) ∨
    (∃ m0,
      env.statNotExist (env.pathJoin env.GetBootRoot (imageName img)) w = true ∧
      (env.CopyBootFolder (m0 ++ "/") (imageName img)
        (env.mount (newBakeform env i img) w).2.2).1 = none ∧
      loadImage env i img w =
        .next
          (env.unmount (env.mount (newBakeform env i img) w).2.1
            (env.CopyBootFolder (m0 ++ "/") (imageName img)
              (env.mount (newBakeform env i img) w).2.2).2).2.1
          (env.unmount (env.mount (newBakeform env i img) w).2.1
            (env.CopyBootFolder (m0 ++ "/") (imageName img)
              (env.mount (newBakeform env i img) w).2.2).2).2.2
          [.log ("Loading image " ++ imageName img ++ "\n"),
           .stat (env.pathJoin env.GetBootRoot (imageName img)) true,
           .mount (imageName img),
           .copyBoot (m0 ++ "/") (imageName img),
           .unmount (imageName img)]) := by
  cases hs : env.statNotExist (env.pathJoin env.GetBootRoot (imageName img)) w with
  | false => exact Or.inl ⟨rfl, loadImage_present env i img w hs⟩
  | true =>
    right
    rcases hm : env.mount (newBakeform env i img) w with ⟨e, bf1, w1⟩
    cases e with
    | some err => exact Or.inl ⟨err, rfl, loadImage_mount_error env i img w hs err bf1 w1 hm⟩
    | none =>
      right
      cases hmo : bf1.MountedOn with
      | nil => exact Or.inl ⟨rfl, loadImage_no_partition env i img w hs bf1 w1 hm hmo⟩
      | cons m0 ms =>
        right
        cases hc : (env.CopyBootFolder (m0 ++ "/") (imageName img) w1).1 with
        | some err =>
          exact Or.inl
            ⟨m0, err, rfl, loadImage_copy_error env i img w hs bf1 w1 m0 ms err hm hmo hc⟩
        | none =>
          exact Or.inr ⟨m0, rfl, hc, loadImage_copy_ok env i img w hs bf1 w1 m0 ms hm hmo hc⟩

/-- In the calls of the body of the loop, a mount of `n` comes right after the
presence check that found the boot location of `n` absent, and a boot copy for `n`
right after that check and the mount. -/
theorem loadImage_guarded {σ : Type} (env : Env σ) (i : BakeformInventory) (img : String)
    (w : σ) (n : String) :
    RightAfter [.stat (env.pathJoin env.GetBootRoot n) true] (.mount n)
      (loadImage env i img w).trace ∧
    ∀ src, RightAfter [.stat (env.pathJoin env.GetBootRoot n) true, .mount n]
      (.copyBoot src n) (loadImage env i img w).trace := by
  by_cases hn : n = imageName img
  · subst hn
    rcases loadImage_cases env i img w with ⟨_, h⟩ | ⟨err, _, h⟩ | ⟨_, h⟩ | ⟨m0, err, _, h⟩ | ⟨m0, _, _, h⟩
    all_goals rw [h]; simp only [ImageStep.trace]
    · exact ⟨rightAfter_of_not_mem _ _ _ (by simp),
        fun src => rightAfter_of_not_mem _ _ _ (by simp)⟩
    · exact ⟨rightAfter_segment [_] [_] [] _ (by simp) (by simp) (by simp),
        fun src => rightAfter_of_not_mem _ _ _ (by simp)⟩
    · exact ⟨rightAfter_segment [_] [_] [] _ (by simp) (by simp) (by simp),
        fun src => rightAfter_of_not_mem _ _ _ (by simp)⟩
    · refine ⟨rightAfter_segment [_] [_] [_, _] _ (by simp) (by simp) (by simp), fun src => ?_⟩
      by_cases hsrc : src = m0 ++ "/"
      · subst hsrc
        exact rightAfter_segment [_] [_, _] [_] _ (by simp) (by simp) (by simp)
      · exact rightAfter_of_not_mem _ _ _ (by simp [hsrc])
    · refine ⟨rightAfter_segment [_] [_] [_, _] _ (by simp) (by simp) (by simp), fun src => ?_⟩
      by_cases hsrc : src = m0 ++ "/"
      · subst hsrc
        exact rightAfter_segment [_] [_, _] [_] _ (by simp) (by simp) (by simp)
      · exact rightAfter_of_not_mem _ _ _ (by simp [hsrc])
  · rcases loadImage_cases env i img w with ⟨_, h⟩ | ⟨err, _, h⟩ | ⟨_, h⟩ | ⟨m0, err, _, h⟩ | ⟨m0, _, _, h⟩
    all_goals rw [h]; simp only [ImageStep.trace]
    all_goals exact ⟨rightAfter_of_not_mem _ _ _ (by simp [hn]),
        fun src => rightAfter_of_not_mem _ _ _ (by simp [hn])⟩

theorem loadLoop_guarded {σ : Type} (env : Env σ) (i : BakeformInventory) (imgs : List String)
    (list : BakeformList) (w : σ) (n : String) :
    RightAfter [.stat (env.pathJoin env.GetBootRoot n) true] (.mount n)
      (loadLoop env i imgs list w).trace ∧
    ∀ src, RightAfter [.stat (env.pathJoin env.GetBootRoot n) true, .mount n]
      (.copyBoot src n) (loadLoop env i imgs list w).trace := by
  induction imgs generalizing list w with
  | nil =>
    exact ⟨rightAfter_of_not_mem _ _ _ (by simp [loadLoop_nil]),
      fun src => rightAfter_of_not_mem _ _ _ (by simp [loadLoop_nil])⟩
  | cons img rest ih =>
    have hg := loadImage_guarded env i img w n
    cases hs : loadImage env i img w with
    | stop r w1 tr =>
      rw [loadLoop_cons_stop env i img rest list w r w1 tr hs]
      rw [hs] at hg
      exact hg
    | next bf w1 tr =>
      rw [loadLoop_cons_next env i img rest list w bf w1 tr hs]
      rw [hs] at hg
      obtain ⟨ih1, ih2⟩ := ih (list.set (imageName img) bf) w1
      exact ⟨rightAfter_append _ _ _ _ hg.1 ih1,
        fun src => rightAfter_append _ _ _ _ (hg.2 src) (ih2 src)⟩

theorem Load_guarded {σ : Type} (env : Env σ) (i : BakeformInventory) (w : σ) (n : String) :
    RightAfter [.stat (env.pathJoin env.GetBootRoot n) true] (.mount n) (Load env i w).trace ∧
    ∀ src, RightAfter [.stat (env.pathJoin env.GetBootRoot n) true, .mount n]
      (.copyBoot src n) (Load env i w).trace := by
  cases hg : env.Glob (i.folder ++ "/*.img") w with
  | error e =>
    rw [Load_glob_error env i w e hg]
    exact ⟨rightAfter_of_not_mem _ _ _ (by simp),
      fun src => rightAfter_of_not_mem _ _ _ (by simp)⟩
  | ok imgs =>
    obtain ⟨-, -, ht, -, -⟩ := Load_glob_ok env i w imgs hg
    rw [ht]
    obtain ⟨h1, h2⟩ := loadLoop_guarded env i imgs [] w n
    exact ⟨rightAfter_append _ _ [.loadCalled, .glob (i.folder ++ "/*.img")] _
        (rightAfter_of_not_mem _ _ _ (by simp)) h1,
      fun src => rightAfter_append _ _ [.loadCalled, .glob (i.folder ++ "/*.img")] _
        (rightAfter_of_not_mem _ _ _ (by simp)) (h2 src)⟩

/-! ## Theorems: a second Load copies nothing -/

theorem loadImage_keeps {σ : Type} (env : Env σ) (hM : BootCopyModel env)
    (i : BakeformInventory) (img : String) (w : σ) (p : String)
    (h : env.statNotExist p w = false) :
    env.statNotExist p (loadImage env i img w).world = false := by
  rcases loadImage_cases env i img w
    with ⟨_, e⟩ | ⟨err, _, e⟩ | ⟨_, e⟩ | ⟨m0, err, _, e⟩ | ⟨m0, _, _, e⟩
  all_goals rw [e]; simp only [ImageStep.world]
  · exact h
  · exact hM.mount_keeps _ _ _ h
  · exact hM.mount_keeps _ _ _ h
  · exact hM.unmount_keeps _ _ _ (hM.copy_keeps _ _ _ _ (hM.mount_keeps _ _ _ h))
  · exact hM.unmount_keeps _ _ _ (hM.copy_keeps _ _ _ _ (hM.mount_keeps _ _ _ h))

theorem loadImage_glob {σ : Type} (env : Env σ) (hM : BootCopyModel env)
    (i : BakeformInventory) (img : String) (w : σ) (pat : String) :
    env.Glob pat (loadImage env i img w).world = env.Glob pat w := by
  rcases loadImage_cases env i img w
    with ⟨_, e⟩ | ⟨err, _, e⟩ | ⟨_, e⟩ | ⟨m0, err, _, e⟩ | ⟨m0, _, _, e⟩
  all_goals rw [e]; simp only [ImageStep.world]
  · exact hM.glob_mount _ _ _
  · exact hM.glob_mount _ _ _
  · rw [hM.glob_unmount, hM.glob_copy, hM.glob_mount]
  · rw [hM.glob_unmount, hM.glob_copy, hM.glob_mount]

theorem loadImage_next_marks {σ : Type} (env : Env σ) (hM : BootCopyModel env)
    (i : BakeformInventory) (img : String) (w : σ) (bf : Bakeform) (w1 : σ)
    (tr : List Event) (h : loadImage env i img w = .next bf w1 tr) :
    env.statNotExist (env.pathJoin env.GetBootRoot (imageName img)) w1 = false := by
  rcases loadImage_cases env i img w
    with ⟨hs, e⟩ | ⟨err, _, e⟩ | ⟨_, e⟩ | ⟨m0, err, _, e⟩ | ⟨m0, _, hc, e⟩
  all_goals rw [e] at h
  · cases h; exact hs
  · cases h
  · cases h
  · cases h
  · cases h
    exact hM.unmount_keeps _ _ _ (hM.copy_marks _ _ _ hc)

theorem loadLoop_keeps {σ : Type} (env : Env σ) (hM : BootCopyModel env)
    (i : BakeformInventory) (imgs : List String) (list : BakeformList) (w : σ) (p : String)
    (h : env.statNotExist p w = false) :
    env.statNotExist p (loadLoop env i imgs list w).world = false := by
  induction imgs generalizing list w with
  | nil => simpa [loadLoop_nil] using h
  | cons img rest ih =>
    have hk := loadImage_keeps env hM i img w p h
    cases hs : loadImage env i img w with
    | stop r w1 tr =>
      rw [loadLoop_cons_stop env i img rest list w r w1 tr hs]
      rw [hs] at hk
      exact hk
    | next bf w1 tr =>
      rw [loadLoop_cons_next env i img rest list w bf w1 tr hs]
      rw [hs] at hk
      exact ih _ _ hk

theorem loadLoop_glob {σ : Type} (env : Env σ) (hM : BootCopyModel env)
    (i : BakeformInventory) (imgs : List String) (list : BakeformList) (w : σ) (pat : String) :
    env.Glob pat (loadLoop env i imgs list w).world = env.Glob pat w := by
  induction imgs generalizing list w with
  | nil => simp [loadLoop_nil]
  | cons img rest ih =>
    have hk := loadImage_glob env hM i img w pat
    cases hs : loadImage env i img w with
    | stop r w1 tr =>
      rw [loadLoop_cons_stop env i img rest list w r w1 tr hs]
      rw [hs] at hk
      exact hk
    | next bf w1 tr =>
      rw [loadLoop_cons_next env i img rest list w bf w1 tr hs]
      rw [hs] at hk
      exact (ih _ _).trans hk

/-- After a loop that ended with nil, the boot location of every image exists. -/
theorem loadLoop_marks {σ : Type} (env : Env σ) (hM : BootCopyModel env)
    (i : BakeformInventory) (imgs : List String) (list : BakeformList) (w : σ)
    (h : (loadLoop env i imgs list w).ret = .nil) (img : String) (hi : img ∈ imgs) :
    env.statNotExist (env.pathJoin env.GetBootRoot (imageName img))
      (loadLoop env i imgs list w).world = false := by
  induction imgs generalizing list w with
  | nil => cases hi
  | cons x rest ih =>
    cases hs : loadImage env i x w with
    | stop r w1 tr =>
      rw [loadLoop_cons_stop env i x rest list w r w1 tr hs] at h
      exact absurd h (loadImage_stop_ne_nil env i x w r w1 tr hs)
    | next bf w1 tr =>
      rw [loadLoop_cons_next env i x rest list w bf w1 tr hs] at h ⊢
      simp only at h ⊢
      rcases List.mem_cons.mp hi with hx | hx
      · subst hx
        exact loadLoop_keeps env hM i rest _ w1 _
          (loadImage_next_marks env hM i img w bf w1 tr hs)
      · exact ih _ _ h hx

/-- A loop over images whose boot locations all exist returns nil, leaves the world
as it is, and neither mounts nor copies. -/
theorem loadLoop_present {σ : Type} (env : Env σ) (i : BakeformInventory)
    (imgs : List String) (list : BakeformList) (w : σ)
    (h : ∀ img ∈ imgs, env.statNotExist (env.pathJoin env.GetBootRoot (imageName img)) w = false) :
    (loadLoop env i imgs list w).ret = .nil ∧
    (loadLoop env i imgs list w).world = w ∧
    (∀ src n, Event.copyBoot src n ∉ (loadLoop env i imgs list w).trace) ∧
    (∀ n, Event.mount n ∉ (loadLoop env i imgs list w).trace) ∧
    (∀ n, copyCount n (loadLoop env i imgs list w).trace = 0) := by
  induction imgs generalizing list with
  | nil => simp [loadLoop_nil, copyCount]
  | cons img rest ih =>
    have hp := loadImage_present env i img w (h img (List.mem_cons_self _ _))
    rw [loadLoop_cons_next env i img rest list w _ _ _ hp]
    obtain ⟨h1, h2, h3, h4, h5⟩ :=
      ih (list.set (imageName img) (newBakeform env i img))
        (fun x hx => h x (List.mem_cons_of_mem _ hx))
    refine ⟨h1, h2, fun src n => ?_, fun n => ?_, fun n => ?_⟩
    · simpa using h3 src n
    · simpa using h4 n
    · simpa [copyCount] using h5 n

theorem copyCount_append (n : String) (t1 t2 : List Event) :
    copyCount n (t1 ++ t2) = copyCount n t1 + copyCount n t2 := by
  induction t1 with
  | nil => simp [copyCount]
  | cons e rest ih =>
    cases e <;> simp [copyCount, ih, Nat.add_assoc]

/-- In the model of the boot copy, one loop copies at most once per name, and not at
all for a name whose boot location exists when it starts. -/
theorem loadLoop_copyCount {σ : Type} (env : Env σ) (hM : BootCopyModel env)
    (i : BakeformInventory) (imgs : List String) (list : BakeformList) (w : σ) (n : String) :
    copyCount n (loadLoop env i imgs list w).trace ≤ 1 ∧
    (env.statNotExist (env.pathJoin env.GetBootRoot n) w = false →
      copyCount n (loadLoop env i imgs list w).trace = 0) := by
  induction imgs generalizing list w with
  | nil => simp [loadLoop_nil, copyCount]
  | cons img rest ih =>
    rcases loadImage_cases env i img w
      with ⟨hs, e⟩ | ⟨err, hs, e⟩ | ⟨hs, e⟩ | ⟨m0, err, hs, e⟩ | ⟨m0, hs, hc, e⟩
    · rw [loadLoop_cons_next env i img rest list w _ _ _ e]
      dsimp only
      rw [copyCount_append]
      have hseg : copyCount n
          [.log ("Loading image " ++ imageName img ++ "\n"),
           .stat (env.pathJoin env.GetBootRoot (imageName img)) false] = 0 := by
        simp [copyCount]
      rw [hseg, Nat.zero_add]
      exact ih _ _
    · rw [loadLoop_cons_stop env i img rest list w _ _ _ e]
      simp [copyCount]
    · rw [loadLoop_cons_stop env i img rest list w _ _ _ e]
      simp [copyCount]
    · rw [loadLoop_cons_stop env i img rest list w _ _ _ e]
      by_cases hn : imageName img = n
      · subst hn
        simp [copyCount, hs]
      · simp [copyCount, hn]
    · have hnext := loadImage_next_marks env hM i img w _ _ _ e
      have hkeep := fun p hp => loadImage_keeps env hM i img w p hp
      rw [e] at hkeep
      simp only [ImageStep.world] at hkeep
      rw [loadLoop_cons_next env i img rest list w _ _ _ e]
      dsimp only
      rw [copyCount_append]
      have hseg : copyCount n
          [.log ("Loading image " ++ imageName img ++ "\n"),
           .stat (env.pathJoin env.GetBootRoot (imageName img)) true,
           .mount (imageName img),
           .copyBoot (m0 ++ "/") (imageName img),
           .unmount (imageName img)] = if imageName img = n then 1 else 0 := by
        simp [copyCount]
      rw [hseg]
      obtain ⟨ih1, ih2⟩ := ih (list.set (imageName img)
        (env.unmount (env.mount (newBakeform env i img) w).2.1
            (env.CopyBootFolder (m0 ++ "/") (imageName img)
              (env.mount (newBakeform env i img) w).2.2).2).2.1)
        (env.unmount (env.mount (newBakeform env i img) w).2.1
            (env.CopyBootFolder (m0 ++ "/") (imageName img)
              (env.mount (newBakeform env i img) w).2.2).2).2.2
      by_cases hn : imageName img = n
      · subst hn
        rw [ih2 hnext]
        simp [hs]
      · rw [if_neg hn]
        refine ⟨by omega, fun hp => ?_⟩
        have := ih2 (hkeep _ hp)
        omega

/-- C2: in the calls of `Load`, every `mount` of a bakeform `n` comes right after a
presence check that found its boot location `path.Join(GetBootRoot(), n)` absent, and
every `CopyBootFolder(_, n)` right after that check and the mount; and in the model of
the boot copy, a `Load` run right after a `Load` that returned nil returns nil, mounts
nothing and copies nothing, so that over both runs there is at most one copy per name. -/
theorem Load_copy_only_when_boot_absent {σ : Type} (env : Env σ) (i : BakeformInventory)
    (w : σ) :
    (∀ n, RightAfter [.stat (env.pathJoin env.GetBootRoot n) true] (.mount n)
      (Load env i w).trace) ∧
    (∀ n src, RightAfter [.stat (env.pathJoin env.GetBootRoot n) true, .mount n]
      (.copyBoot src n) (Load env i w).trace) ∧
    (BootCopyModel env → (Load env i w).ret = .nil →
      (Load env (Load env i w).inv (Load env i w).world).ret = .nil ∧
      (∀ src n, Event.copyBoot src n ∉
        (Load env (Load env i w).inv (Load env i w).world).trace) ∧
      (∀ n, Event.mount n ∉ (Load env (Load env i w).inv (Load env i w).world).trace) ∧
      (∀ n, copyCount n ((Load env i w).trace ++
        (Load env (Load env i w).inv (Load env i w).world).trace) ≤ 1)) := by
  refine ⟨fun n => (Load_guarded env i w n).1, fun n src => (Load_guarded env i w n).2 src,
    fun hM hnil => ?_⟩
  cases hg : env.Glob (i.folder ++ "/*.img") w with
  | error e => rw [Load_glob_error env i w e hg] at hnil; simp at hnil
  | ok imgs =>
    obtain ⟨hret, hworld, htrace, hinv, -⟩ := Load_glob_ok env i w imgs hg
    have hloop : (loadLoop env i imgs [] w).ret = .nil := hret ▸ hnil
    have hfolder : (Load env i w).inv.folder = i.folder := by rw [hinv hloop]
    have hg2 : env.Glob ((Load env i w).inv.folder ++ "/*.img") (Load env i w).world
        = .ok imgs := by
      rw [hfolder, hworld, loadLoop_glob env hM, hg]
    obtain ⟨hret2, -, htrace2, -, -⟩ :=
      Load_glob_ok env (Load env i w).inv (Load env i w).world imgs hg2
    have hmarks : ∀ img ∈ imgs,
        env.statNotExist (env.pathJoin env.GetBootRoot (imageName img)) (Load env i w).world
          = false := by
      intro img hi
      rw [hworld]
      exact loadLoop_marks env hM i imgs [] w hloop img hi
    obtain ⟨p1, -, p3, p4, p5⟩ :=
      loadLoop_present env (Load env i w).inv imgs [] (Load env i w).world hmarks
    refine ⟨hret2.trans p1, fun src n => ?_, fun n => ?_, fun n => ?_⟩
    · rw [htrace2]; simpa using p3 src n
    · rw [htrace2]; simpa using p4 n
    · rw [copyCount_append, htrace2, htrace]
      have h1 := (loadLoop_copyCount env hM i imgs [] w n).1
      have h2 := p5 n
      simp only [copyCount]
      omega

theorem simEnv_bootCopyModel : BootCopyModel simEnv where
  copy_marks := by
    intro src name w h
    by_cases hf : w.full = true
    · simp [simEnv, hf] at h
    · simp [simEnv, hf]
  copy_keeps := by
    intro p src name w h
    by_cases hf : w.full = true
    · simpa [simEnv, hf] using h
    · have h2 : p ∈ w.dirs := by simpa [simEnv] using h
      simp [simEnv, hf, h2]
  mount_keeps := by
    intro p bf w h
    by_cases hc : bf.Location ∈ w.corrupt
    · simpa [simEnv, hc] using h
    · simpa [simEnv, hc] using h
  unmount_keeps := by
    intro p bf w h
    simpa [simEnv] using h
  glob_copy := by
    intro pat src name w
    by_cases hf : w.full = true
    · simp [simEnv, hf]
    · simp [simEnv, hf, simGlob]
  glob_mount := by
    intro pat bf w
    by_cases hc : bf.Location ∈ w.corrupt
    · simp [simEnv, hc]
    · simp [simEnv, hc]
  glob_unmount := by
    intro pat bf w
    simp [simEnv]

/-- The witness of C2: two loads of a folder with the images `a` and `b`. -/
theorem Load_copy_only_when_boot_absent_witness :
    (Load simEnv simInv (simWorld [("/images/a.img", "A"), ("/images/b.img", "B")])).ret
      = .nil ∧
    copyCount "a"
      (Load simEnv simInv (simWorld [("/images/a.img", "A"), ("/images/b.img", "B")])).trace
      = 1 ∧
    (∀ src n, Event.copyBoot src n ∉
      (Load simEnv
        (Load simEnv simInv (simWorld [("/images/a.img", "A"), ("/images/b.img", "B")])).inv
        (Load simEnv simInv
          (simWorld [("/images/a.img", "A"), ("/images/b.img", "B")])).world).trace) :=
  ⟨by decide, by decide,
   ((Load_copy_only_when_boot_absent simEnv simInv
      (simWorld [("/images/a.img", "A"), ("/images/b.img", "B")])).2.2
        simEnv_bootCopyModel (by decide)).2.1⟩

/-! ## Witnesses -/

/-- The witness of C4: over the images `a` and `b`, once with a boot root that has no
space left (the copy of `a` fails) and once with space. -/
theorem Load_copy_then_unmount_witness :
    simEnv.Glob (simInv.folder ++ "/*.img") simTwoFull
      = .ok ([] ++ "/images/a.img" :: ["/images/b.img"]) ∧
    (Load simEnv simInv simTwoFull).ret = .err "no space left on device" ∧
    (Load simEnv simInv simTwoFull).trace =
      [.loadCalled, .glob "/images/*.img", .log "Loading image a\n",
       .stat "/boot/a" true, .mount "a", .copyBoot "/mnt/a/0/" "a", .unmount "a"] ∧
    (Load simEnv simInv simTwo).trace =
      [.loadCalled, .glob "/images/*.img", .log "Loading image a\n",
       .stat "/boot/a" true, .mount "a", .copyBoot "/mnt/a/0/" "a", .unmount "a",
       .log "Loading image b\n",
       .stat "/boot/b" true, .mount "b", .copyBoot "/mnt/b/0/" "b", .unmount "b"] :=
  ⟨rfl,
   congrArg LoadOut.ret
    ((Load_copy_then_unmount simEnv simInv simTwoFull [] "/images/a.img" ["/images/b.img"]
      { simBakeformA with MountedOn := ["/mnt/a/0"] } simTwoFull "/mnt/a/0" []
      rfl rfl rfl rfl rfl).1 "no space left on device" rfl),
   congrArg LoadOut.trace
    ((Load_copy_then_unmount simEnv simInv simTwoFull [] "/images/a.img" ["/images/b.img"]
      { simBakeformA with MountedOn := ["/mnt/a/0"] } simTwoFull "/mnt/a/0" []
      rfl rfl rfl rfl rfl).1 "no space left on device" rfl),
   (Load_copy_then_unmount simEnv simInv simTwo [] "/images/a.img" ["/images/b.img"]
      { simBakeformA with MountedOn := ["/mnt/a/0"] } simTwo "/mnt/a/0" []
      rfl rfl rfl rfl rfl).2 rfl⟩

/-- The witness of C5: a load that fails at the image `b` leaves the inventory as it
was, and a load that succeeds replaces a stale entry by the entries of `a` and `b`. -/
theorem Load_replaces_content_witness :
    (Load simEnv { simInv with Content := [("old", simBakeformA)] } simTwoCorrupt).ret
      ≠ .nil ∧
    (Load simEnv { simInv with Content := [("old", simBakeformA)] } simTwoCorrupt).inv
      = { simInv with Content := [("old", simBakeformA)] } ∧
    (Load simEnv { simInv with Content := [("old", simBakeformA)] } simTwo).ret = .nil ∧
    (Load simEnv { simInv with Content := [("old", simBakeformA)] } simTwo).inv.Content.keys
      = ["a", "b"] ∧
    (∃ imgs, simEnv.Glob ("/images" ++ "/*.img") simTwo = .ok imgs ∧
      (Load simEnv { simInv with Content := [("old", simBakeformA)] } simTwo).inv =
        { simInv with Content := (loadLoop simEnv
          { simInv with Content := [("old", simBakeformA)] } imgs [] simTwo).list } ∧
      (∀ k, ((Load simEnv { simInv with Content := [("old", simBakeformA)] }
          simTwo).inv.Content.get k).isSome = true ↔ k ∈ imgs.map imageName)) :=
  ⟨by decide,
   (Load_replaces_content simEnv { simInv with Content := [("old", simBakeformA)] }
      simTwoCorrupt).1 (by decide),
   by decide, by decide,
   (Load_replaces_content simEnv { simInv with Content := [("old", simBakeformA)] }
      simTwo).2.1 (by decide)⟩

/-- The witness of C8: the boot copy of the loaded image `a` cannot be removed. -/
theorem DeleteHandler_delete_error_witness :
    BakeformList.get [("a", simBakeformA)] "a" = some simBakeformA ∧
    simEnv.Delete simBakeformA simStuck =
      (some "remove /boot/a: device or resource busy", simBakeformA,
        { simStuck with files := [] }) ∧
    (DeleteHandler simEnv { simInv with Content := [("a", simBakeformA)] } "a"
        Response.fresh simStuck).resp
      = { status := some 500, body := "remove /boot/a: device or resource busy" } ∧
    Event.loadCalled ∉
      (DeleteHandler simEnv { simInv with Content := [("a", simBakeformA)] } "a"
        Response.fresh simStuck).trace :=
  ⟨by decide, by decide,
   (DeleteHandler_delete_error simEnv { simInv with Content := [("a", simBakeformA)] } "a"
      simStuck simBakeformA simBakeformA "remove /boot/a: device or resource busy"
      { simStuck with files := [] } (by decide) (by decide)).1,
   (DeleteHandler_delete_error simEnv { simInv with Content := [("a", simBakeformA)] } "a"
      simStuck simBakeformA simBakeformA "remove /boot/a: device or resource busy"
      { simStuck with files := [] } (by decide) (by decide)).2.2.1⟩

end Bakery
